import Mathlib

/-!
Shallow embedding of `src/assembler.py` (an LC3 assembler written in Python).

Modelling conventions:
* Python's 65536-entry `array('H')` memory is a function `Nat → Nat`; a write
  checks the `array('H')` range `0 ≤ v < 2^16` and fails (Python
  `OverflowError`) otherwise.
* Python `dict` objects (`labels`, `label_location`) are association lists
  kept in insertion order; `labels[k] = v` prepends (lookup returns the most
  recent binding, matching dict overwrite), `label_location[k].append r`
  appends to the existing entry in place, preserving iteration order.
* Fallible paths (uncaught `ValueError`, `IndexError`, `OverflowError`,
  `NameError`) are `Except String`; the interactive `input(...)`-and-return
  paths of `process_instruction` simply continue, as the Python does after
  the prompt returns.
* Machine words are `Nat` with explicit masking; Python's arbitrary-precision
  `int` is `Int` where negatives can occur (`labels[label] - ref - 1`,
  string-escape codes, negative literals).
* `str.isalpha`/`isdigit`/`lower` are modelled by the ASCII `Char`
  predicates; source tokens are ASCII.
* Python `int(...)` parsing is modelled for sign + digits (resp. hex digits
  after `0x`); the numeric-literal underscore feature of Python is not used
  by any token the assembler meaningfully accepts and is not modelled.
-/

namespace LC3

/-- One cell update of the word memory (Python `memory[a] = v` once the
`array('H')` range check has passed). -/
def updateMem (mem : Nat → Nat) (a v : Nat) : Nat → Nat :=
  fun x => if x = a then v else mem x

/-- Checked memory write: Python `memory[a] = v` on `array('H')` raises
`OverflowError` unless `0 ≤ v < 2^16`. -/
def memWrite (mem : Nat → Nat) (a v : Nat) : Except String (Nat → Nat) :=
  if v < 65536 then .ok (updateMem mem a v) else .error "OverflowError"

/-- Hexadecimal digit value, as accepted by Python `int(_, 0)` after `0x`. -/
def hexVal? (c : Char) : Option Nat :=
  if '0' ≤ c ∧ c ≤ '9' then some (c.toNat - '0'.toNat)
  else if 'a' ≤ c ∧ c ≤ 'f' then some (c.toNat - 'a'.toNat + 10)
  else if 'A' ≤ c ∧ c ≤ 'F' then some (c.toNat - 'A'.toNat + 10)
  else none

def parseHexAux : List Char → Nat → Option Nat
  | [], acc => some acc
  | c :: rest, acc =>
    match hexVal? c with
    | some d => parseHexAux rest (acc * 16 + d)
    | none => none

/-- Parse a non-empty string of hex digits (the part after `0x` in
Python `int('0x…', 0)`); `none` models the `ValueError`. -/
def parseHex? (cs : List Char) : Option Nat :=
  if cs = [] then none else parseHexAux cs 0

def parseDecAux : List Char → Nat → Option Nat
  | [], acc => some acc
  | c :: rest, acc =>
    if c.isDigit then parseDecAux rest (acc * 10 + (c.toNat - '0'.toNat))
    else none

/-- Parse a non-empty string of decimal digits. -/
def parseDec? (cs : List Char) : Option Nat :=
  if cs = [] then none else parseDecAux cs 0

/-- Python `int(s)` (base 10): optional sign, then decimal digits. -/
def pyIntDec? : List Char → Option Int
  | '-' :: rest => (parseDec? rest).map fun n => -(n : Int)
  | '+' :: rest => (parseDec? rest).map fun n => (n : Int)
  | cs => (parseDec? cs).map fun n => (n : Int)

/-- Python `int(s, 0)`: `0x` prefix selects hex; a decimal literal must not
have a leading zero unless the value is zero. Only the forms the assembler
can feed it (`.ORIG` arguments) are modelled. -/
def pyIntBase0Mag? : List Char → Option Nat
  | '0' :: 'x' :: rest => parseHex? rest
  | '0' :: 'X' :: rest => parseHex? rest
  | cs =>
    if cs ≠ [] ∧ cs.all (· = '0') then some 0
    else
      match cs with
      | c :: _ => if c = '0' then none else parseDec? cs
      | [] => none

def pyIntBase0? : List Char → Option Int
  | '-' :: rest => (pyIntBase0Mag? rest).map fun n => -(n : Int)
  | '+' :: rest => (pyIntBase0Mag? rest).map fun n => (n : Int)
  | cs => (pyIntBase0Mag? cs).map fun n => (n : Int)

/-- Python `i & mask` for an arbitrary-precision `i` and a non-negative
`mask`: two's-complement bitwise and, always non-negative here. For a
negative `i = -(k+1)` the bits are `¬k`, so the result is
`mask &&& ¬k = mask ^^^ (mask &&& k)`, written with kernel-computable
operations; `pyAnd_eq_int_land` below ties this to `Int.land`. -/
def pyAnd (i : Int) (mask : Nat) : Nat :=
  match i with
  | .ofNat m => m &&& mask
  | .negSucc k => mask ^^^ (mask &&& k)

/-- Python `in` on a token list. -/
def hasTok : List String → String → Bool
  | [], _ => false
  | w :: rest, t => if w = t then true else hasTok rest t

/-- Association-list lookup in insertion order (Python dict read). -/
def alookup {α : Type} : List (String × α) → String → Option α
  | [], _ => none
  | (k, v) :: rest, s => if k = s then some v else alookup rest s

/-- `instruction_info`: base opcode pattern per mnemonic (values as computed
from the shift/add expressions in the source). -/
def instruction_info : List (String × Nat) :=
  [("ADD", 0x1000), ("AND", 0x5000), ("BR", 0x0), ("GETC", 0xF020),
   ("HALT", 0xF025), ("IN", 0xF023), ("JMP", 0xC000), ("JMPT", 0xC001),
   ("JSR", 0x4800), ("JSRR", 0x2000), ("LD", 0x2000), ("LDI", 0xA000),
   ("LDR", 0x6000), ("LEA", 0xE000), ("NOT", 0x903F), ("OUT", 0xF021),
   ("PUTS", 0xF022), ("PUTSP", 0xF024), ("RET", 0xC1C0), ("RTI", 0x8000),
   ("RTT", 0xC1C1), ("ST", 0x3000), ("STI", 0xB000), ("STR", 0x7000),
   ("TRAP", 0xF000)]

/-- `immediate`: immediate-field bit width per mnemonic. -/
def immediateTable : List (String × Nat) :=
  [("ADD", 5), ("AND", 5), ("BR", 9), ("GETC", 0), ("HALT", 0), ("IN", 0),
   ("JMP", 0), ("JMPT", 0), ("JSR", 11), ("JSRR", 0), ("LD", 9), ("LDI", 9),
   ("LDR", 6), ("LEA", 9), ("NOT", 9), ("OUT", 0), ("PUTS", 0), ("PUTSP", 0),
   ("RET", 0), ("RTI", 0), ("RTT", 0), ("ST", 9), ("STI", 9), ("STR", 6),
   ("TRAP", 8), ("UNDEFINED", 0)]

def instrBase? (s : String) : Option Nat := alookup instruction_info s

/-- Python `words[0] in instructions`. -/
def isInstr (s : String) : Bool := (instrBase? s).isSome

/-- `immediate[found]` (callers only use keys present in the table). -/
def immediateW (s : String) : Nat := (alookup immediateTable s).getD 0

/-- `immediate_mask[im] = (1 << immediate[im]) - 1`. -/
def immediate_mask (s : String) : Nat := (1 <<< immediateW s) - 1

/-- `regs = dict(('R%1i' % r, r) for r in range(8))`. -/
def regsT : List (String × Nat) :=
  [("R0", 0), ("R1", 1), ("R2", 2), ("R3", 3),
   ("R4", 4), ("R5", 5), ("R6", 6), ("R7", 7)]

/-- `reg_pos = [9, 6, 0]`. -/
def reg_pos : List Nat := [9, 6, 0]

/-- `flags = dict with n, z, p bits`; key membership test (`c in flags`). -/
def flagsMem (c : Char) : Bool := c = 'n' ∨ c = 'z' ∨ c = 'p'

/-- `flags[c]` for a key known to be present (`n → 1<<11`, `z → 1<<10`,
`p → 1<<9`). -/
def flagsVal (c : Char) : Nat :=
  if c = 'n' then 2048 else if c = 'z' then 1024 else if c = 'p' then 512 else 0

/-- `fl |= flags[f] for f in suffix.lower()`, starting from 0. -/
def brFold (cs : List Char) : Nat :=
  cs.foldl (fun a c => a ||| flagsVal c.toLower) 0

/-- Python `word.rstrip(',')`. -/
def stripComma (w : String) : String :=
  String.mk ((w.data.reverse.dropWhile (· = ',')).reverse)

/-- Python `s.startswith(pre)`. -/
def myStartsWith (s pre : String) : Bool := pre.data.isPrefixOf s.data

/-- `valid_label` from the source. Python evaluates `word[1]` only when
`word[0] == 'x'`; the one-character token `"x"` makes Python raise
`IndexError` there — this total model returns `true` for it instead (no
claim touches that token). -/
def valid_label (word : String) : Bool :=
  match word.data with
  | [] => false
  | c :: rest =>
    if c = 'x' ∧ (rest.headD ' ').isDigit then false
    else c.isAlpha ∧ (c :: rest).all fun ch => ch.isAlpha ∨ ch.isDigit ∨ ch = '_'

/-- The character set of the hex guard in `get_immediate`
(`'-0123456789abcdefgABCDEF'` — note it contains `g` but not `G`). -/
def hexGuardSet : List Char := "-0123456789abcdefgABCDEF".data

/-- `get_immediate(word, mask=0xFFFF)`. The first two branches call
`int(...)` outside any handler, so a parse failure there is an uncaught
`ValueError` (modelled as `.error`); only the bare `int(word)` of the last
branch is wrapped in `try`, returning `None` (`.ok none`). -/
def get_immediate (word : String) (mask : Nat := 0xFFFF) :
    Except String (Option Nat) :=
  let cs := word.data
  if cs.headD ' ' = 'x' ∧ (cs.drop 1).all (· ∈ hexGuardSet) ∧
      ¬ (cs.drop 2).contains '-' then
    match parseHex? (cs.drop 1) with
    | some n => .ok (some (n &&& mask))
    | none => .error "ValueError: invalid int literal"
  else if cs.headD ' ' = '#' then
    match pyIntDec? (cs.drop 1) with
    | some i => .ok (some (pyAnd i mask))
    | none => .error "ValueError: invalid int literal"
  else
    match pyIntDec? cs with
    | some i => .ok (some (pyAnd i mask))
    | none => .ok none

/-- `put_and_show(n)`: negative values get `(1<<16)` added, then the word is
stored at `pc` (crashing like the `array('H')` write if still out of
range). -/
def put_and_show (mem : Nat → Nat) (pc : Nat) (n : Int) :
    Except String (Nat → Nat) :=
  let n' : Int := if n < 0 then 65536 + n else n
  if 0 ≤ n' then memWrite mem pc n'.toNat else .error "OverflowError"

/-- `in_range(n, bits)` from the source:
`-(1 << (bits-1)) <= n < (1 << (bits-1))`. For `bits = 0` Python would
raise (`1 << -1`); the claims only use positive widths. -/
def in_range (n : Int) (bits : Nat) : Bool :=
  -((2 : Int) ^ (bits - 1)) ≤ n ∧ n < (2 : Int) ^ (bits - 1)

/-- A fixup record `[address, mask, width]` of `label_location`. -/
abbrev Fixup := Nat × Nat × Nat

/-- The mutable assembler globals: `memory`, `pc`, `orig`, `labels`,
`label_location`. `pc`/`orig` start at 0 (Python leaves them unbound until
`.ORIG`; every program considered starts with `.ORIG`). -/
structure St where
  mem : Nat → Nat
  pc : Nat
  orig : Nat
  labels : List (String × Nat)
  label_location : List (String × List Fixup)

def initSt : St :=
  { mem := fun _ => 0, pc := 0, orig := 0, labels := [], label_location := [] }

/-- `labels[k] = v`: dict overwrite, modelled by prepending (lookup finds the
newest binding first). -/
def labelsSet (ls : List (String × Nat)) (k : String) (v : Nat) :
    List (String × Nat) :=
  (k, v) :: ls

/-- `label_location[word].append(r)` resp. `label_location[word] = [r]`,
preserving dict insertion order for the resolver loop. -/
def llAdd : List (String × List Fixup) → String → Fixup →
    List (String × List Fixup)
  | [], lab, r => [(lab, [r])]
  | (k, v) :: rest, lab, r =>
    if k = lab then (k, v ++ [r]) :: rest else (k, v) :: llAdd rest lab r

/-- Number of fixup records currently queued for a label. -/
def llCount (ll : List (String × List Fixup)) (lab : String) : Nat :=
  ((alookup ll lab).getD []).length

/-- The branch-normalization block (source lines 220–233): find a token
starting with `BR` at index 0 or 1; if its length is at most 5 and every
suffix character lowercases into `{n,z,p}`, replace a bare `BR` by `BRnzp`,
fold the suffix flags into `fl`, and overwrite the token with `BR`. -/
def normalizeBranch (words : List String) : List String × Option Nat :=
  let ind? : Option Nat :=
    if myStartsWith (words.headD "") "BR" then some 0
    else if words.length ≥ 2 ∧ myStartsWith (words.getD 1 "") "BR" then some 1
    else none
  match ind? with
  | none => (words, none)
  | some ind =>
    let tok := words.getD ind ""
    if tok.data.length ≤ 5 ∧ (tok.data.drop 2).all (fun c => flagsMem c.toLower) then
      let tok1 := if tok = "BR" then "BRnzp" else tok
      (words.set ind "BR", some (brFold (tok1.data.drop 2)))
    else (words, none)

/-- The operand loop of `process_instruction` (source lines 273–297): for
each operand word (trailing commas stripped), place a register into the next
`reg_pos` slot, or OR a parsed immediate into the instruction (setting bit 5
for `ADD`/`AND`), or queue a fixup `[pc, mask, width]` for a valid label;
`instruction |= r` after every operand, and `JMPT` breaks after the first.
Returns the final instruction word and updated fixup list. -/
def opLoop (found : String) (pc mask width : Nat) :
    List String → Nat → Nat → Nat → List (String × List Fixup) →
    Except String (Nat × List (String × List Fixup))
  | [], instr, _, _, ll => .ok (instr, ll)
  | w :: rest, instr, r, rc, ll =>
    let word := stripComma w
    let step : Except String (Nat × Nat × Nat × List (String × List Fixup)) :=
      match alookup regsT word with
      | some rg =>
        match reg_pos.get? rc with
        | some pos => .ok (instr, r ||| (rg <<< pos), rc + 1, ll)
        | none => .error "IndexError: reg_pos"
      | none =>
        match get_immediate word mask with
        | .error e => .error e
        | .ok (some v) =>
          .ok (instr ||| v ||| (if found = "ADD" ∨ found = "AND" then 32 else 0),
               r, rc, ll)
        | .ok none =>
          if word = found then .ok (instr, r, rc, ll)
          else if valid_label word then
            .ok (instr, r, rc, llAdd ll word (pc, mask, width))
          else .error "ValueError: invalid label"
    match step with
    | .error e => .error e
    | .ok (instr1, r1, rc1, ll1) =>
      let instr2 := instr1 ||| r1
      if found = "JMPT" then .ok (instr2, ll1)
      else opLoop found pc mask width rest instr2 r1 rc1 ll1

/-- The encode tail of `process_instruction` once `found` is a known
mnemonic (source lines 263–300): OR the `fl` condition bits into a `BR`
base, run the operand loop, and store the word at `pc`. A `BR` reaching
this point always came through normalization, so `fl` is bound; the
impossible unbound case is Python's `NameError`. -/
def encodeInstr (st : St) (found : String) (fl? : Option Nat)
    (words : List String) : Except String St :=
  match instrBase? found with
  | none => .ok st
  | some base =>
    let withFl : Except String Nat :=
      if found = "BR" then
        match fl? with
        | some f => .ok (base ||| f)
        | none => .error "NameError: fl"
      else .ok base
    match withFl with
    | .error e => .error e
    | .ok instr0 =>
      match opLoop found st.pc (immediate_mask found) (immediateW found)
          (words.drop 1) instr0 0 (if found = "JMPT" then 1 else 0)
          st.label_location with
      | .error e => .error e
      | .ok (instr, ll) =>
        match put_and_show st.mem st.pc (instr : Int) with
        | .error e => .error e
        | .ok mem1 => .ok { st with mem := mem1, pc := st.pc + 1, label_location := ll }

/-- Split a character list at every occurrence of `sep`
(Python `line.split('"')`; always at least one piece). -/
def splitOnChar (sep : Char) : List Char → List (List Char)
  | [] => [[]]
  | c :: rest =>
    let r := splitOnChar sep rest
    if c = sep then [] :: r
    else
      match r with
      | h :: t => (c :: h) :: t
      | [] => [[c]]

/-- The `.STRINGZ` re-join loop: pieces after the second quote are glued
back with a `"` only when the running string ends in a backslash; other
pieces are silently dropped (as in the source). -/
def rejoinQuoted : List Char → List (List Char) → List Char
  | str, [] => str
  | str, piece :: rest =>
    if str.getLast? = some '\\' then rejoinQuoted (str ++ '"' :: piece) rest
    else rejoinQuoted str rest

/-- The `.STRINGZ` escape decoding: a backslash makes the next character
escaped; escaped `n`, `b`, `l`, `r` yield `ord(c) - 100` (which is negative
for `b`), any other escaped character yields itself. -/
def decodeEscapes : List Char → Bool → List Int
  | [], _ => []
  | c :: rest, false =>
    if c = '\\' then decodeEscapes rest true
    else (c.toNat : Int) :: decodeEscapes rest false
  | c :: rest, true =>
    (if c = 'n' ∨ c = 'b' ∨ c = 'l' ∨ c = 'r' then (c.toNat : Int) - 100
     else (c.toNat : Int)) :: decodeEscapes rest false

/-- Write a list of (possibly negative) character codes consecutively with
`put_and_show`, advancing `pc` for each. -/
def writeCodes (mem : Nat → Nat) (pc : Nat) :
    List Int → Except String ((Nat → Nat) × Nat)
  | [] => .ok (mem, pc)
  | m :: rest =>
    match put_and_show mem pc m with
    | .error e => .error e
    | .ok mem1 => writeCodes mem1 (pc + 1) rest

/-- `process_instruction(words)` (with the already comment-stripped `line`
needed by the `.STRINGZ` branch), one source line of effects on the
assembler state. -/
def process_instruction (st : St) (words0 : List String) (line : String) :
    Except String St :=
  if words0 = [] ∨ myStartsWith (words0.headD "") ";" then .ok st
  else if hasTok words0 ".FILL" then
    match words0.get? (words0.findIdx (· == ".FILL") + 1) with
    | none => .error "IndexError: .FILL operand"
    | some word =>
      let base : Except String St :=
        match pyIntDec? word.data with
        | some i =>
          match put_and_show st.mem st.pc i with
          | .error e => .error e
          | .ok m => .ok { st with mem := m }
        | none =>
          match get_immediate word with
          | .error e => .error e
          | .ok none =>
            .ok { st with label_location := llAdd st.label_location word (st.pc, 0xFFFF, 16) }
          | .ok (some v) =>
            match memWrite st.mem st.pc v with
            | .error e => .error e
            | .ok m => .ok { st with mem := m }
      match base with
      | .error e => .error e
      | .ok st1 =>
        let st2 :=
          if words0.headD "" ≠ ".FILL" then
            { st1 with labels := labelsSet st1.labels (words0.headD "") st1.pc }
          else st1
        .ok { st2 with pc := st2.pc + 1 }
  else if hasTok words0 ".ORIG" then
    match words0.get? 1 with
    | none => .error "IndexError: .ORIG operand"
    | some w1 =>
      let parsed :=
        if myStartsWith w1 "x" then pyIntBase0? ('0' :: w1.data)
        else pyIntBase0? w1.data
      match parsed with
      | none => .error "ValueError: invalid int literal"
      | some i =>
        if i < 0 then .error "negative .ORIG address (unmodelled)"
        else .ok { st with orig := i.toNat, pc := i.toNat }
  else if hasTok words0 ".STRINGZ" then
    let st1 :=
      if valid_label (words0.headD "") then
        { st with labels := labelsSet st.labels (words0.headD "") st.pc }
      else st
    let s := splitOnChar '"' line.data
    match s.get? 1 with
    | none => .error "IndexError: .STRINGZ string"
    | some s1 =>
      let str := rejoinQuoted s1 (s.drop 2)
      match writeCodes st1.mem st1.pc (decodeEscapes str false) with
      | .error e => .error e
      | .ok (mem1, pc1) =>
        match put_and_show mem1 pc1 0 with
        | .error e => .error e
        | .ok mem2 => .ok { st1 with mem := mem2, pc := pc1 + 1 }
  else if hasTok words0 ".BLKW" then
    let st1 := { st with labels := labelsSet st.labels (words0.headD "") st.pc }
    match words0.getLast? with
    | none => .error "IndexError: .BLKW operand"
    | some w =>
      match get_immediate w with
      | .error e => .error e
      | .ok none => .error "ValueError: bad .BLKW immediate"
      | .ok (some v) =>
        if v ≤ 0 then .error "ValueError: bad .BLKW immediate"
        else .ok { st1 with pc := st1.pc + v }
  else
    let norm := normalizeBranch words0
    let words := norm.1
    let fl? := norm.2
    if isInstr (words.headD "") then encodeInstr st (words.headD "") fl? words
    else
      let st1 :=
        if valid_label (words.headD "") then
          { st with labels := labelsSet st.labels (words.headD "") st.pc }
        else st
      if words.length < 2 then .ok st1
      else
        match words.get? 1 with
        | none => .ok st1
        | some w1 =>
          if isInstr w1 then encodeInstr st1 w1 fl? words
          else if words.length > 1 then .ok st1
          else if valid_label (words.headD "") then
            .ok { st1 with label_location := llAdd st1.label_location (words.headD "") (st1.pc, 0xFFFF, 16) }
          else .error "ValueError: invalid label"

/-- `line.split(';')[0]`: everything from the first `;` on is removed. -/
def pySplitComment (cs : List Char) : List Char := cs.takeWhile (· ≠ ';')

/-- `line.replace(',', ', ')`. -/
def pyCommaSpace : List Char → List Char
  | [] => []
  | c :: rest =>
    if c = ',' then ',' :: ' ' :: pyCommaSpace rest else c :: pyCommaSpace rest

/-- Whitespace split, keeping empty pieces (filtered afterwards, giving
Python `str.split()`). -/
def splitWs : List Char → List (List Char)
  | [] => [[]]
  | c :: rest =>
    let r := splitWs rest
    if c.isWhitespace then [] :: r
    else
      match r with
      | h :: t => (c :: h) :: t
      | [] => [[c]]

def wordsOf (cs : List Char) : List String :=
  ((splitWs cs).filter (· ≠ [])).map String.mk

/-- The per-line preprocessing of the driver loop (source lines 352–359):
drop everything after the first `;` unconditionally, then space out commas
only when no quote is present, then whitespace-split. (The source's
`words = (line.split()) if ';' in line else line.split()` has identical
branches, so it is a plain split.) -/
def preprocess (raw : String) : String × List String :=
  let l1 := pySplitComment raw.data
  let l2 := if l1.contains '"' then l1 else pyCommaSpace l1
  (String.mk l2, wordsOf l2)

/-- The driver's line loop: preprocess each line, stop at `.END`, otherwise
feed the words (plus the processed line text) to `process_instruction`. -/
def processLines (st : St) : List String → Except String St
  | [] => .ok st
  | raw :: rest =>
    let p := preprocess raw
    if hasTok p.2 ".END" then .ok st
    else
      match process_instruction st p.2 p.1 with
      | .error e => .error e
      | .ok st1 => processLines st1 rest

/-- Resolution of the fixup records of one label (source lines 373–387):
a zero stored word is overwritten with the label's absolute address; a
non-zero word gets `mask & (labels[label] - ref - 1)` ORed in after the
`in_range` check, whose failure raises. -/
def resolveRecords (labAddr : Nat) : List Fixup → (Nat → Nat) →
    Except String (Nat → Nat)
  | [], mem => .ok mem
  | (ref, mask, bits) :: rest, mem =>
    let current : Int := (labAddr : Int) - (ref : Int) - 1
    if mem ref = 0 then
      match memWrite mem ref labAddr with
      | .error e => .error e
      | .ok mem1 => resolveRecords labAddr rest mem1
    else if ¬ in_range current bits then
      .error "ValueError: fixup offset out of range"
    else
      match memWrite mem ref (mem ref ||| pyAnd current mask) with
      | .error e => .error e
      | .ok mem1 => resolveRecords labAddr rest mem1

/-- The resolver loop over `label_location` (source lines 368–387). A label
missing from `labels` only prints `Bad label failure` (collected in the
returned log) and resolution continues with the next label. -/
def resolveAll (labels : List (String × Nat)) :
    List (String × List Fixup) → (Nat → Nat) → List String →
    Except String ((Nat → Nat) × List String)
  | [], mem, log => .ok (mem, log)
  | (lab, recs) :: rest, mem, log =>
    match alookup labels lab with
    | none => resolveAll labels rest mem (log ++ ["Bad label failure: " ++ lab])
    | some a =>
      match resolveRecords a recs mem with
      | .error e => .error e
      | .ok mem1 => resolveAll labels rest mem1 log

/-- Whole run up to (but excluding) output emission: process all lines,
then resolve every fixup. Returns the final state and the resolver's
bad-label diagnostics. -/
def assemble (lines : List String) : Except String (St × List String) :=
  match processLines initSt lines with
  | .error e => .error e
  | .ok st =>
    match resolveAll st.labels st.label_location st.mem [] with
    | .error e => .error e
    | .ok (mem, log) => .ok ({ st with mem := mem }, log)

/-- Exchange the two bytes of a 16-bit word (`array.byteswap` per word). -/
def byteswap16 (w : Nat) : Nat := (w % 256) * 256 + (w / 256) % 256

/-- The `.obj` emission (source lines 422–434): store `orig` at `pc`,
byteswap the whole image, write the word at `pc` followed by the window
`[orig, pc)`, then byteswap back. Returns the written words and the
in-memory image as left behind. -/
def emitObj (mem : Nat → Nat) (orig pc : Nat) : List Nat × (Nat → Nat) :=
  let mem1 := updateMem mem pc orig
  let mem2 := fun a => byteswap16 (mem1 a)
  let out := mem2 pc :: (List.range (pc - orig)).map (fun i => mem2 (orig + i))
  (out, fun a => byteswap16 (mem2 a))

/-- The end-to-end example program of the spec. -/
def progAddHalt : List String :=
  [".ORIG x3000", "ADD R1, R2, R3", "HALT", ".END"]

/-- Backward reference: `L` is defined (at x3000) before its use (at x3001). -/
def progBackRef : List String :=
  [".ORIG x3000", "L .FILL 5", ".ORIG x3001", "BR L"]

/-- Forward reference: the same two addresses, with `L`'s defining line moved
after its use. -/
def progFwdRef : List String :=
  [".ORIG x3001", "BR L", ".ORIG x3000", "L .FILL 5"]

/-- A program whose single fixup references a label never defined. -/
def progUndef : List String := [".ORIG x3000", "LD R1, NOPE"]

end LC3

namespace LC3

/-! ### Helper lemmas -/

/-- `pyAnd` computes exactly Python's `i & mask`, i.e. `Int.land` against
the non-negative mask. -/
theorem pyAnd_eq_int_land (i : Int) (mask : Nat) :
    pyAnd i mask = (Int.land i (Int.ofNat mask)).toNat := by
  cases i with
  | ofNat m => simp [pyAnd, Int.land]
  | negSucc k =>
    simp only [pyAnd, Int.land, Int.toNat_ofNat]
    apply Nat.eq_of_testBit_eq
    intro j
    rw [Nat.testBit_ldiff, Nat.testBit_xor, Nat.testBit_and]
    cases mask.testBit j <;> cases k.testBit j <;> rfl

/-- Python `i & mask` stays below any power of two bounding `mask`. -/
theorem pyAnd_lt_pow {i : Int} {mask n : Nat} (h : mask < 2 ^ n) :
    pyAnd i mask < 2 ^ n := by
  cases i with
  | ofNat m => exact Nat.and_lt_two_pow m h
  | negSucc k =>
    have h1 : mask &&& k < 2 ^ n := Nat.lt_of_le_of_lt Nat.and_le_left h
    exact Nat.xor_lt_two_pow h h1

theorem pyAnd_lt_65536 {i : Int} {mask : Nat} (h : mask < 65536) :
    pyAnd i mask < 65536 := by
  have h2 : pyAnd i mask < 2 ^ 16 :=
    pyAnd_lt_pow (show mask < 2 ^ 16 by omega)
  omega

/-- Swapping the two bytes of a 16-bit word twice gives the word back. -/
theorem byteswap16_byteswap16 {w : Nat} (h : w < 65536) :
    byteswap16 (byteswap16 w) = w := by
  simp only [byteswap16]
  have h1 : (w % 256 * 256 + w / 256 % 256) % 256 = w / 256 % 256 := by omega
  have h2 : (w % 256 * 256 + w / 256 % 256) / 256 = w % 256 := by omega
  rw [h1, h2]
  omega

/-! ### C1 — relative fixup resolution is range-checked -/

/-- C1: for a fixup record `(ref, mask, bits)` of a label defined at
`labAddr`, when the stored word at `ref` is non-zero at resolution time the
resolver computes `offset = labAddr - ref - 1`; if
`-2^(bits-1) ≤ offset < 2^(bits-1)` it ORs `offset & mask` into the stored
word and goes on, and otherwise it raises a range error — it never silently
truncates the offset. -/
theorem c1_relative_fixup_range_checked (labAddr ref mask bits : Nat)
    (rest : List Fixup) (mem : Nat → Nat)
    (hnz : mem ref ≠ 0) (_hw : 1 ≤ bits) (hmem : mem ref < 65536)
    (hmask : mask < 65536) :
    ((-((2 : Int) ^ (bits - 1)) ≤ (labAddr : Int) - ref - 1 ∧
        (labAddr : Int) - ref - 1 < (2 : Int) ^ (bits - 1)) →
      resolveRecords labAddr ((ref, mask, bits) :: rest) mem =
        resolveRecords labAddr rest
          (updateMem mem ref
            (mem ref ||| pyAnd ((labAddr : Int) - ref - 1) mask))) ∧
    (¬ (-((2 : Int) ^ (bits - 1)) ≤ (labAddr : Int) - ref - 1 ∧
        (labAddr : Int) - ref - 1 < (2 : Int) ^ (bits - 1)) →
      resolveRecords labAddr ((ref, mask, bits) :: rest) mem =
        .error "ValueError: fixup offset out of range") := by
  constructor
  · intro hin
    simp only [resolveRecords]
    rw [if_neg hnz]
    have hir : in_range ((labAddr : Int) - ref - 1) bits = true := by
      simp only [in_range, Bool.and_eq_true, decide_eq_true_eq]
      exact ⟨hin.1, hin.2⟩
    rw [if_neg (by simp [hir])]
    have hor : mem ref ||| pyAnd ((labAddr : Int) - ref - 1) mask < 65536 := by
      have hp : pyAnd ((labAddr : Int) - ref - 1) mask < 65536 :=
        pyAnd_lt_65536 hmask
      have h16 : (65536 : Nat) = 2 ^ 16 := by norm_num
      rw [h16] at hmem hp ⊢
      exact Nat.or_lt_two_pow hmem hp
    simp [memWrite, hor]
  · intro hout
    simp only [resolveRecords]
    rw [if_neg hnz]
    have hir : ¬ (in_range ((labAddr : Int) - ref - 1) bits = true) := by
      simp only [in_range, Bool.and_eq_true, decide_eq_true_eq]
      exact hout
    rw [if_pos hir]

/-- C1 witness: a concrete in-range resolution (a `BR` word `0x0E00` at
`x3001` referencing a label at `x3000`, offset `-2` in a 9-bit field). -/
theorem c1_relative_fixup_range_checked_witness :
    resolveRecords 0x3000 [(0x3001, 511, 9)]
        (updateMem (fun _ => 0) 0x3001 0x0E00) =
      resolveRecords 0x3000 []
        (updateMem (updateMem (fun _ => 0) 0x3001 0x0E00) 0x3001
          ((updateMem (fun _ => 0) 0x3001 0x0E00) 0x3001 |||
            pyAnd ((0x3000 : Int) - 0x3001 - 1) 511)) :=
  (c1_relative_fixup_range_checked 0x3000 0x3001 511 9 []
      (updateMem (fun _ => 0) 0x3001 0x0E00)
      (by decide) (by decide) (by decide) (by decide)).1 (by decide)

/-! ### C2 — zero stored word means absolute address fill -/

/-- C2: for a fixup record of a defined label, if the stored word at the
record's address is exactly 0 at resolution time, the resolver replaces it
with the label's address as a raw 16-bit value; `mask` and `bits` are
arbitrary here and do not appear in the result (no PC-relative offset is
computed). -/
theorem c2_absolute_fill (labAddr ref mask bits : Nat) (rest : List Fixup)
    (mem : Nat → Nat) (hz : mem ref = 0) (hlt : labAddr < 65536) :
    resolveRecords labAddr ((ref, mask, bits) :: rest) mem =
      resolveRecords labAddr rest (updateMem mem ref labAddr) := by
  simp only [resolveRecords]
  rw [if_pos hz]
  simp [memWrite, hlt]

/-- C2 witness: a `.FILL` site (word 0) at `x3000` for a label at `x3005`
is patched with the absolute address `x3005`, which a relative
interpretation (`offset = 4`) would not produce. -/
theorem c2_absolute_fill_witness :
    resolveRecords 0x3005 [(0x3000, 0xFFFF, 16)] (fun _ => 0) =
      resolveRecords 0x3005 [] (updateMem (fun _ => 0) 0x3000 0x3005) :=
  c2_absolute_fill 0x3005 0x3000 0xFFFF 16 [] (fun _ => 0) rfl (by norm_num)

/-! ### C3 — three-register instruction encoding -/

/-- A register lookup result is a register number below 8. -/
theorem regs_val_lt {w : String} {d : Nat} (h : alookup regsT w = some d) :
    d < 8 := by
  simp only [regsT, alookup] at h
  repeat' split at h
  all_goals try exact Option.noConfusion h
  all_goals injection h with h
  all_goals omega

/-- The operand loop on three register tokens (for a mnemonic other than
`JMPT`) ORs the register numbers into bits 9–11, 6–8 and 0–2. -/
theorem opLoop_three_regs (found : String) (pc mask width : Nat)
    (td t1 t2 : String) (d s1 s2 base : Nat) (ll : List (String × List Fixup))
    (hj : found ≠ "JMPT")
    (hd : alookup regsT (stripComma td) = some d)
    (h1 : alookup regsT (stripComma t1) = some s1)
    (h2 : alookup regsT (stripComma t2) = some s2) :
    opLoop found pc mask width [td, t1, t2] base 0 0 ll =
      .ok (base ||| d <<< 9 ||| s1 <<< 6 ||| s2, ll) := by
  simp only [opLoop, hd, h1, h2, reg_pos, List.get?, if_neg hj]
  congr 1
  congr 1
  apply Nat.eq_of_testBit_eq
  intro j
  simp only [Nat.testBit_or, Nat.zero_testBit, Nat.shiftLeft_zero, Bool.false_or]
  cases d.testBit (j - 9) <;> cases s1.testBit (j - 6) <;> cases s2.testBit j <;>
    cases base.testBit j <;> simp

/-- Bit 5 (the immediate-mode bit) of a three-register word is clear when
the base opcode has it clear. -/
theorem threeRegWord_bit5 (base d s1 s2 : Nat) (hb : base.testBit 5 = false)
    (_hd : d < 8) (_hs1 : s1 < 8) (hs2 : s2 < 8) :
    (base ||| d <<< 9 ||| s1 <<< 6 ||| s2) &&& 32 = 0 := by
  apply Nat.eq_of_testBit_eq
  intro j
  simp only [Nat.testBit_and, Nat.testBit_or, Nat.testBit_shiftLeft,
    Nat.zero_testBit]
  by_cases hj : j = 5
  · subst hj
    have h2 : s2.testBit 5 = false :=
      Nat.testBit_lt_two_pow (by omega : s2 < 2 ^ 5)
    simp [hb, h2]
  · rw [show (32 : Nat) = 2 ^ 5 by norm_num, Nat.testBit_two_pow]
    have h5 : (decide (5 = j) : Bool) = false := by
      simp only [decide_eq_false_iff_not]
      omega
    simp [h5]

/-- A three-register word is a 16-bit value. -/
theorem threeRegWord_lt (base d s1 s2 : Nat) (hb : base < 65536)
    (hd : d < 8) (hs1 : s1 < 8) (hs2 : s2 < 8) :
    base ||| d <<< 9 ||| s1 <<< 6 ||| s2 < 65536 := by
  have e : (65536 : Nat) = 2 ^ 16 := by norm_num
  rw [e]
  have hd9 : d <<< 9 < 2 ^ 16 := by rw [Nat.shiftLeft_eq]; omega
  have hs6 : s1 <<< 6 < 2 ^ 16 := by rw [Nat.shiftLeft_eq]; omega
  exact Nat.or_lt_two_pow
    (Nat.or_lt_two_pow (Nat.or_lt_two_pow (e ▸ hb) hd9) hs6) (by omega)

/-- Storing an in-range machine word through `put_and_show` succeeds. -/
theorem put_and_show_nat (mem : Nat → Nat) (pc : Nat) (w : Nat)
    (h : w < 65536) :
    put_and_show mem pc (w : Int) = .ok (updateMem mem pc w) := by
  simp only [put_and_show, memWrite]
  rw [if_neg (by omega : ¬ ((w : Int) < 0)),
      if_pos (by omega : (0 : Int) ≤ (w : Int))]
  simp only [Int.toNat_natCast]
  rw [if_pos h]

/-- `encodeInstr` on a non-`BR`, non-`JMPT` mnemonic with three register
operands writes the three-register word at `pc` and advances `pc`. -/
theorem encodeInstr_three_regs (m : String) (base : Nat) (st : St)
    (td t1 t2 : String) (d s1 s2 : Nat) (fl? : Option Nat)
    (hbase : instrBase? m = some base) (hbr : m ≠ "BR") (hjm : m ≠ "JMPT")
    (hblt : base < 65536)
    (hd : alookup regsT (stripComma td) = some d)
    (h1 : alookup regsT (stripComma t1) = some s1)
    (h2 : alookup regsT (stripComma t2) = some s2) :
    encodeInstr st m fl? [m, td, t1, t2] =
      .ok { st with
             mem := updateMem st.mem st.pc (base ||| d <<< 9 ||| s1 <<< 6 ||| s2),
             pc := st.pc + 1 } := by
  have hdlt := regs_val_lt hd
  have h1lt := regs_val_lt h1
  have h2lt := regs_val_lt h2
  simp only [encodeInstr, hbase, if_neg hbr, List.drop_succ_cons, List.drop_zero]
  rw [if_neg hjm,
    opLoop_three_regs m st.pc (immediate_mask m) (immediateW m)
      td t1 t2 d s1 s2 base st.label_location hjm hd h1 h2]
  have hps := put_and_show_nat st.mem st.pc _
    (threeRegWord_lt base d s1 s2 hblt hdlt h1lt h2lt)
  simp only [hps]

/-- C3: an `ADD`/`AND` line with three register operands encodes to
`base_opcode | (d << 9) | (s1 << 6) | s2` with the immediate-mode bit
(bit 5) clear, and the spec's end-to-end example
`.ORIG x3000 / ADD R1, R2, R3 / HALT / .END` yields word `0x1283` at
`x3000`, `0xF025` at `x3001`, origin `0x3000` and final location counter
`0x3002`. -/
theorem c3_three_register_encoding :
    (∀ (m : String) (st : St) (td t1 t2 : String) (d s1 s2 : Nat)
       (fl? : Option Nat),
       m = "ADD" ∨ m = "AND" →
       alookup regsT (stripComma td) = some d →
       alookup regsT (stripComma t1) = some s1 →
       alookup regsT (stripComma t2) = some s2 →
       encodeInstr st m fl? [m, td, t1, t2] =
         .ok { st with
                mem := updateMem st.mem st.pc
                  ((instrBase? m).getD 0 ||| d <<< 9 ||| s1 <<< 6 ||| s2),
                pc := st.pc + 1 } ∧
       ((instrBase? m).getD 0 ||| d <<< 9 ||| s1 <<< 6 ||| s2) &&& 32 = 0) ∧
    (assemble progAddHalt).map
        (fun p => (p.1.mem 0x3000, p.1.mem 0x3001, p.1.orig, p.1.pc)) =
      .ok (0x1283, 0xF025, 0x3000, 0x3002) := by
  refine ⟨?_, rfl⟩
  intro m st td t1 t2 d s1 s2 fl? hm hd h1 h2
  have hdlt := regs_val_lt hd
  have h1lt := regs_val_lt h1
  have h2lt := regs_val_lt h2
  rcases hm with hm | hm <;> subst hm
  · refine ⟨encodeInstr_three_regs "ADD" 0x1000 st td t1 t2 d s1 s2 fl?
      rfl (by decide) (by decide) (by norm_num) hd h1 h2, ?_⟩
    exact threeRegWord_bit5 0x1000 d s1 s2 (by decide) hdlt h1lt h2lt
  · refine ⟨encodeInstr_three_regs "AND" 0x5000 st td t1 t2 d s1 s2 fl?
      rfl (by decide) (by decide) (by norm_num) hd h1 h2, ?_⟩
    exact threeRegWord_bit5 0x5000 d s1 s2 (by decide) hdlt h1lt h2lt

/-- C3 witness: `encodeInstr` on `ADD R1, R2, R3` at `x3000` writes
`0x1283`. -/
theorem c3_three_register_encoding_witness :
    encodeInstr { initSt with pc := 0x3000 } "ADD" none
        ["ADD", "R1,", "R2,", "R3"] =
      .ok { (initSt : St) with
             mem := updateMem initSt.mem 0x3000
               ((instrBase? "ADD").getD 0 ||| 1 <<< 9 ||| 2 <<< 6 ||| 3),
             pc := 0x3000 + 1 } ∧
    ((instrBase? "ADD").getD 0 ||| 1 <<< 9 ||| 2 <<< 6 ||| 3) &&& 32 = 0 :=
  (c3_three_register_encoding.1 "ADD" { initSt with pc := 0x3000 }
    "R1," "R2," "R3" 1 2 3 none (Or.inl rfl) rfl rfl rfl)

theorem pySplitComment_semi (s t : List Char) :
    pySplitComment (s ++ ';' :: t) = pySplitComment (s ++ [';']) := by
  induction s with
  | nil => simp [pySplitComment]
  | cons c cs ih =>
    by_cases h : c = ';'
    · simp [pySplitComment, h]
    · simpa [pySplitComment, List.takeWhile_cons, h] using ih

/-- C4 counterexample: the tokenizer truncates at `;` even when the line
contains a quoted string, so the `;` of `.STRINGZ "a;b"` is NOT preserved:
the truncated literal is `a`, and only `97` and the terminating `0` are
emitted (the claim would require `59` — the code of `;` — at `x3001`). -/
theorem c4_counterexample :
    (preprocess "H .STRINGZ \"a;b\"").1 = "H .STRINGZ \"a" ∧
    (assemble [".ORIG x3000", "H .STRINGZ \"a;b\""]).map
        (fun p => (p.1.mem 0x3000, p.1.mem 0x3001, p.1.pc)) =
      .ok (97, 0, 0x3002) ∧
    (0 : Nat) ≠ 59 :=
  ⟨rfl, rfl, by decide⟩

/-- C4 amended: text after the first `;` of a line is always discarded,
whether or not the line contains a quoted string; a `;` inside a `.STRINGZ`
literal therefore truncates the literal, and only the characters before the
`;` are emitted (followed by the terminating zero word). -/
theorem c4_comment_always_discarded :
    (∀ (s t1 t2 : List Char),
       preprocess (String.mk (s ++ ';' :: t1)) =
         preprocess (String.mk (s ++ ';' :: t2))) ∧
    (assemble [".ORIG x3000", "X .STRINGZ \"ab;cd\""]).map
        (fun p => (p.1.mem 0x3000, p.1.mem 0x3001, p.1.mem 0x3002, p.1.pc)) =
      .ok (97, 98, 0, 0x3003) := by
  refine ⟨?_, rfl⟩
  intro s t1 t2
  simp only [preprocess]
  rw [pySplitComment_semi s t1, pySplitComment_semi s t2]

/-! ### C5 — branch flag normalization -/

theorem foldl_or_shift (f : Char → Nat) (cs : List Char) (a : Nat) :
    cs.foldl (fun x c => x ||| f c) a =
      a ||| cs.foldl (fun x c => x ||| f c) 0 := by
  induction cs generalizing a with
  | nil => simp
  | cons c cs ih =>
    rw [List.foldl_cons, List.foldl_cons, ih (a ||| f c), ih (0 ||| f c),
      Nat.zero_or, Nat.or_assoc]

theorem brFold_cons (c : Char) (cs : List Char) :
    brFold (c :: cs) = flagsVal c.toLower ||| brFold cs := by
  simp only [brFold, List.foldl_cons, Nat.zero_or]
  exact foldl_or_shift (fun c => flagsVal c.toLower) cs _

theorem flagsVal_testBit (x : Char) :
    (flagsVal x).testBit 11 = decide (x = 'n') ∧
    (flagsVal x).testBit 10 = decide (x = 'z') ∧
    (flagsVal x).testBit 9 = decide (x = 'p') := by
  by_cases hn : x = 'n'
  · subst hn; refine ⟨by decide, by decide, by decide⟩
  · by_cases hz : x = 'z'
    · subst hz; refine ⟨by decide, by decide, by decide⟩
    · by_cases hp : x = 'p'
      · subst hp; refine ⟨by decide, by decide, by decide⟩
      · simp [flagsVal, hn, hz, hp]

/-- The folded condition field has exactly the bits named by the suffix
characters: bit 11 iff some character lowercases to `n`, bit 10 for `z`,
bit 9 for `p` — independent of order, case and multiplicity. -/
theorem brFold_testBit (cs : List Char) :
    (brFold cs).testBit 11 = cs.any (fun c => c.toLower = 'n') ∧
    (brFold cs).testBit 10 = cs.any (fun c => c.toLower = 'z') ∧
    (brFold cs).testBit 9 = cs.any (fun c => c.toLower = 'p') := by
  induction cs with
  | nil => refine ⟨by decide, by decide, by decide⟩
  | cons c cs ih =>
    rw [brFold_cons]
    obtain ⟨i1, i2, i3⟩ := ih
    obtain ⟨f1, f2, f3⟩ := flagsVal_testBit c.toLower
    refine ⟨?_, ?_, ?_⟩
    · rw [Nat.testBit_or, f1, i1, List.any_cons]
    · rw [Nat.testBit_or, f2, i2, List.any_cons]
    · rw [Nat.testBit_or, f3, i3, List.any_cons]

theorem flagsVal_and_3584 (x : Char) : flagsVal x &&& 3584 = flagsVal x := by
  by_cases hn : x = 'n'
  · subst hn; decide
  · by_cases hz : x = 'z'
    · subst hz; decide
    · by_cases hp : x = 'p'
      · subst hp; decide
      · simp [flagsVal, hn, hz, hp]

/-- The folded condition field only occupies bits 9–11. -/
theorem brFold_and_3584 (cs : List Char) : brFold cs &&& 3584 = brFold cs := by
  induction cs with
  | nil => decide
  | cons c cs ih =>
    rw [brFold_cons, Nat.and_distrib_right, flagsVal_and_3584, ih]

theorem brFold_lt (cs : List Char) : brFold cs < 4096 := by
  have h := brFold_and_3584 cs
  have : brFold cs &&& 3584 < 4096 :=
    Nat.lt_of_le_of_lt Nat.and_le_right (by norm_num)
  omega

/-- A successfully parsed immediate is bounded by any power of two
bounding the mask. -/
theorem get_immediate_lt {w : String} {mask v n : Nat}
    (h : get_immediate w mask = .ok (some v)) (hm : mask < 2 ^ n) :
    v < 2 ^ n := by
  simp only [get_immediate] at h
  repeat' split at h
  all_goals try exact Except.noConfusion h
  all_goals injection h with h
  all_goals try exact Option.noConfusion h
  all_goals injection h with h
  all_goals subst h
  · exact Nat.and_lt_two_pow _ hm
  · exact pyAnd_lt_pow hm
  · exact pyAnd_lt_pow hm

/-- A 9-bit value has no bits in the condition field 9–11. -/
theorem and_3584_eq_zero {v : Nat} (hv : v < 512) : v &&& 3584 = 0 := by
  apply Nat.eq_of_testBit_eq
  intro j
  rw [Nat.testBit_and, Nat.zero_testBit]
  by_cases hj : 9 ≤ j
  · have hv2 : v < 2 ^ j :=
      Nat.lt_of_lt_of_le (by omega : v < 2 ^ 9) (Nat.pow_le_pow_right (by omega) hj)
    rw [Nat.testBit_lt_two_pow hv2, Bool.false_and]
  · have h9 : (decide (9 ≤ j)) = false := decide_eq_false hj
    have h3584 : (3584 : Nat) = 7 <<< 9 := by rw [Nat.shiftLeft_eq]
    rw [h3584, Nat.testBit_shiftLeft, h9, Bool.false_and, Bool.and_false]

/-- `encodeInstr` for a normalized `BR` with one non-register immediate
operand stores `fl ||| v` at `pc`. -/
theorem encodeInstr_BR_imm (st : St) (fl : Nat) (t : String) (v : Nat)
    (hreg : alookup regsT (stripComma t) = none)
    (himm : get_immediate (stripComma t) 511 = .ok (some v))
    (hfl : fl < 4096) (hv : v < 512) :
    encodeInstr st "BR" (some fl) ["BR", t] =
      .ok { st with mem := updateMem st.mem st.pc (fl ||| v), pc := st.pc + 1 } := by
  have hmask : immediate_mask "BR" = 511 := rfl
  have hword : fl ||| v < 65536 := by
    have h12 : fl ||| v < 2 ^ 12 := Nat.or_lt_two_pow (by omega) (by omega)
    omega
  have hb : instrBase? "BR" = some 0 := rfl
  have hps := put_and_show_nat st.mem st.pc (fl ||| v) hword
  simp only [encodeInstr, hb, List.drop_succ_cons, List.drop_zero, opLoop,
    hmask, hreg, himm, Nat.zero_or, Nat.or_zero, eq_self_iff_true, if_true,
    ite_self,
    show (if ("BR" : String) = "ADD" ∨ ("BR" : String) = "AND"
      then 32 else 0) = (0 : Nat) from rfl, hps]

/-- `normalizeBranch` on a bare `BR` head: rewritten to `BRnzp`, then
folded to all three condition bits and the token set back to `BR`. -/
theorem normalizeBranch_BR (rest : List String) :
    normalizeBranch ("BR" :: rest) = ("BR" :: rest, some 3584) := by
  have h1 : myStartsWith "BR" "BR" = true := rfl
  simp [normalizeBranch, h1]
  decide

/-- `normalizeBranch` on a `BRnzp` head. -/
theorem normalizeBranch_BRnzp (rest : List String) :
    normalizeBranch ("BRnzp" :: rest) = ("BR" :: rest, some 3584) := by
  have h1 : myStartsWith "BRnzp" "BR" = true := rfl
  simp [normalizeBranch, h1]
  rw [if_pos (show flagsMem 'n' = true ∧ flagsMem 'z' = true ∧
        flagsMem 'p' = true by decide),
      show brFold ['n', 'z', 'p'] = 3584 from by decide]

/-- `normalizeBranch` on `BR` followed by a non-empty admissible suffix. -/
theorem normalizeBranch_suffix (cs : List Char) (rest : List String)
    (hlen : cs.length ≤ 3) (hcs : ∀ c ∈ cs, flagsMem c.toLower = true)
    (hne : cs ≠ []) :
    normalizeBranch (String.mk ('B' :: 'R' :: cs) :: rest) =
      ("BR" :: rest, some (brFold cs)) := by
  have h1 : myStartsWith (String.mk ('B' :: 'R' :: cs)) "BR" = true := by
    simp [myStartsWith, List.isPrefixOf]
  have h4 : ¬ (String.mk ('B' :: 'R' :: cs) = "BR") := by
    intro h
    have hd := congrArg String.data h
    have hnil : cs = [] := by simpa using hd
    exact hne hnil
  simp [normalizeBranch, h1, h4]
  exact ⟨hlen, hcs⟩

/-- C5: (1) a line whose branch token is `BR` assembles exactly like the
same line with token `BRnzp` (for any line shape that is not a directive
line); (2) a token `BR` followed by 0–3 characters drawn from `{n,z,p}` in
any case and order is normalized to the token `BR` before mnemonic lookup,
with flag word `brFold` of the suffix (all three bits for the empty
suffix); (3) the folded flag word has exactly the condition bits named by
the suffix (bit 11 for `n`, 10 for `z`, 9 for `p`), independent of order,
case and multiplicity); (4) the encoded word of such a branch with an
immediate operand is `fl ||| v` whose bits 9–11 are exactly `fl` and whose
opcode field (bits 12–15) is zero. -/
theorem c5_branch_normalization :
    (∀ (rest : List String) (st : St) (line : String),
       hasTok rest ".FILL" = false → hasTok rest ".ORIG" = false →
       hasTok rest ".STRINGZ" = false → hasTok rest ".BLKW" = false →
       process_instruction st ("BR" :: rest) line =
         process_instruction st ("BRnzp" :: rest) line) ∧
    (∀ (cs : List Char) (rest : List String),
       cs.length ≤ 3 → (∀ c ∈ cs, flagsMem c.toLower = true) →
       normalizeBranch (String.mk ('B' :: 'R' :: cs) :: rest) =
         ("BR" :: rest,
          some (brFold (if cs = [] then ['n', 'z', 'p'] else cs)))) ∧
    (∀ cs : List Char,
       (brFold cs).testBit 11 = cs.any (fun c => c.toLower = 'n') ∧
       (brFold cs).testBit 10 = cs.any (fun c => c.toLower = 'z') ∧
       (brFold cs).testBit 9 = cs.any (fun c => c.toLower = 'p')) ∧
    (∀ (cs : List Char) (st : St) (line t : String) (v : Nat),
       cs.length ≤ 3 → (∀ c ∈ cs, flagsMem c.toLower = true) →
       alookup regsT (stripComma t) = none →
       get_immediate (stripComma t) 511 = .ok (some v) →
       t ≠ ".FILL" → t ≠ ".ORIG" → t ≠ ".STRINGZ" → t ≠ ".BLKW" →
       process_instruction st [String.mk ('B' :: 'R' :: cs), t] line =
         .ok { st with
                mem := updateMem st.mem st.pc
                  (brFold (if cs = [] then ['n', 'z', 'p'] else cs) ||| v),
                pc := st.pc + 1 } ∧
       (brFold (if cs = [] then ['n', 'z', 'p'] else cs) ||| v) &&& 3584 =
         brFold (if cs = [] then ['n', 'z', 'p'] else cs) ∧
       brFold (if cs = [] then ['n', 'z', 'p'] else cs) ||| v < 4096) := by
  refine ⟨?_, ?_, fun cs => brFold_testBit cs, ?_⟩
  · intro rest st line h1 h2 h3 h4
    simp [process_instruction, hasTok, h1, h2, h3, h4,
      normalizeBranch_BR, normalizeBranch_BRnzp,
      show myStartsWith "BR" ";" = false from rfl,
      show myStartsWith "BRnzp" ";" = false from rfl]
  · intro cs rest hlen hcs
    by_cases hcs0 : cs = []
    · subst hcs0
      rw [show String.mk ['B', 'R'] = "BR" from rfl, normalizeBranch_BR]
      simp [show brFold ['n', 'z', 'p'] = 3584 from by decide]
    · rw [normalizeBranch_suffix cs rest hlen hcs hcs0, if_neg hcs0]
  · intro cs st line t v hlen hcs hreg himm ht1 ht2 ht3 ht4
    set fl := brFold (if cs = [] then ['n', 'z', 'p'] else cs) with hfl
    have hv9 : v < 2 ^ 9 := get_immediate_lt himm (by norm_num)
    have hv : v < 512 := by omega
    have hflb : fl < 4096 := brFold_lt _
    refine ⟨?_, ?_, ?_⟩
    · have hnsemi : myStartsWith (String.mk ('B' :: 'R' :: cs)) ";" = false := by
        simp [myStartsWith, List.isPrefixOf]
      have hne1 : ¬ (String.mk ('B' :: 'R' :: cs) = ".FILL") := by
        intro h
        have := congrArg String.data h
        simp at this
      have hne2 : ¬ (String.mk ('B' :: 'R' :: cs) = ".ORIG") := by
        intro h
        have := congrArg String.data h
        simp at this
      have hne3 : ¬ (String.mk ('B' :: 'R' :: cs) = ".STRINGZ") := by
        intro h
        have := congrArg String.data h
        simp at this
      have hne4 : ¬ (String.mk ('B' :: 'R' :: cs) = ".BLKW") := by
        intro h
        have := congrArg String.data h
        simp at this
      have hnorm : normalizeBranch [String.mk ('B' :: 'R' :: cs), t] =
          ("BR" :: [t], some fl) := by
        by_cases hcs0 : cs = []
        · subst hcs0
          rw [show String.mk ['B', 'R'] = "BR" from rfl, normalizeBranch_BR]
          rw [hfl]
          simp [show brFold ['n', 'z', 'p'] = 3584 from by decide]
        · rw [normalizeBranch_suffix cs [t] hlen hcs hcs0, hfl, if_neg hcs0]
      have henc := encodeInstr_BR_imm st fl t v hreg himm hflb hv
      simp [process_instruction, hasTok, hnsemi, hne1, hne2, hne3, hne4,
        ht1, ht2, ht3, ht4, hnorm, henc, isInstr, instrBase?,
        show alookup instruction_info "BR" = some 0 from rfl]
    · rw [Nat.and_distrib_right, brFold_and_3584, and_3584_eq_zero hv,
        Nat.or_zero]
    · have e : (2 : Nat) ^ 12 = 4096 := by norm_num
      have h12 : fl ||| v < 2 ^ 12 :=
        Nat.or_lt_two_pow (e ▸ hflb) (e ▸ (show v < 4096 by omega))
      rw [e] at h12
      exact h12

/-- C5 witness: `BR #4` and `BRnzp #4` assemble identically, and the
mixed-case, reordered suffix token `BRZn` with immediate operand `#4`
encodes flags `z`,`n` over the immediate. -/
theorem c5_branch_normalization_witness :
    process_instruction { initSt with pc := 0x3000 } ("BR" :: ["#4"]) "" =
      process_instruction { initSt with pc := 0x3000 } ("BRnzp" :: ["#4"]) "" ∧
    process_instruction { initSt with pc := 0x3000 }
        [String.mk ('B' :: 'R' :: ['Z', 'n']), "#4"] "" =
      .ok { ({ initSt with pc := 0x3000 } : St) with
             mem := updateMem ({ initSt with pc := 0x3000 } : St).mem
               ({ initSt with pc := 0x3000 } : St).pc
               (brFold (if (['Z', 'n'] : List Char) = []
                  then ['n', 'z', 'p'] else ['Z', 'n']) ||| 4),
             pc := ({ initSt with pc := 0x3000 } : St).pc + 1 } :=
  ⟨c5_branch_normalization.1 ["#4"] { initSt with pc := 0x3000 } ""
      rfl rfl rfl rfl,
   (c5_branch_normalization.2.2.2 ['Z', 'n'] { initSt with pc := 0x3000 }
      "" "#4" 4 (by decide) (by decide) rfl rfl (by decide) (by decide)
      (by decide) (by decide)).1⟩

/-! ### C6 — label operands queue exactly one fixup -/

/-- C6 counterexample: the operand token `xg` is syntactically a label
(`valid_label` accepts it), is not a register, not a mnemonic, and not a
parseable immediate — yet it does not queue a fixup: `get_immediate`
enters its hex branch (the guard string contains `g`) and the inner
`int('0xg', 0)` raises an uncaught `ValueError`, aborting assembly. -/
theorem c6_counterexample :
    valid_label "xg" = true ∧
    alookup regsT "xg" = none ∧
    isInstr "xg" = false ∧
    get_immediate "xg" (immediate_mask "LD") =
      .error "ValueError: invalid int literal" ∧
    process_instruction { initSt with pc := 0x3000 } ["LD", "R1,", "xg"]
        "LD R1, xg" = .error "ValueError: invalid int literal" :=
  ⟨rfl, rfl, rfl, rfl, by rfl⟩

/-- Appending a fixup record grows the record list of exactly that label by
exactly that record. -/
theorem llAdd_count (ll : List (String × List Fixup)) (lab : String)
    (r : Fixup) :
    llCount (llAdd ll lab r) lab = llCount ll lab + 1 := by
  induction ll with
  | nil => simp [llAdd, llCount, alookup]
  | cons kv rest ih =>
    obtain ⟨k, v⟩ := kv
    by_cases hk : k = lab
    · subst hk
      simp [llAdd, llCount, alookup]
    · simp only [llAdd, llCount, alookup, if_neg hk] at ih ⊢
      exact ih

/-- C6 amended: an operand token that is syntactically a label, is not a
register, differs from the current mnemonic, and on which `get_immediate`
returns `None` (rather than raising — tokens such as `xg` whose characters
pass the hex guard but fail hex parsing abort the run instead, see the
counterexample) appends exactly one fixup record `(pc, mask, width)`; the
operand loop never consults the symbol table, so forward and backward
references behave identically — concretely, `progBackRef` and `progFwdRef`
(label defined before vs. after its use, same addresses) produce the same
final patched word `0x0FFE` at `x3001`. -/
theorem c6_label_operand_one_fixup :
    (∀ (found : String) (pc mask width : Nat) (w : String)
       (rest : List String) (instr r rc : Nat)
       (ll : List (String × List Fixup)),
       alookup regsT (stripComma w) = none →
       get_immediate (stripComma w) mask = .ok none →
       stripComma w ≠ found →
       valid_label (stripComma w) = true →
       opLoop found pc mask width (w :: rest) instr r rc ll =
         (if found = "JMPT" then
            .ok (instr ||| r, llAdd ll (stripComma w) (pc, mask, width))
          else
            opLoop found pc mask width rest (instr ||| r) r rc
              (llAdd ll (stripComma w) (pc, mask, width)))) ∧
    (∀ (ll : List (String × List Fixup)) (lab : String) (r : Fixup),
       llCount (llAdd ll lab r) lab = llCount ll lab + 1) ∧
    (assemble progBackRef).map (fun p => p.1.mem 0x3001) = .ok 0x0FFE ∧
    (assemble progFwdRef).map (fun p => p.1.mem 0x3001) = .ok 0x0FFE := by
  refine ⟨?_, llAdd_count, by rfl, by rfl⟩
  intro found pc mask width w rest instr r rc ll hreg himm hfound hlab
  simp only [opLoop, hreg, himm, if_neg hfound, if_pos hlab]

/-- C6 witness: one step of the operand loop on the label operand `FOO,`
of an `LD` line queues exactly the record `(0x3000, 511, 9)`. -/
theorem c6_label_operand_one_fixup_witness :
    opLoop "LD" 0x3000 511 9 ["FOO,"] 0x2200 0 0 [] =
      (if ("LD" : String) = "JMPT" then
         .ok (0x2200 ||| 0, llAdd [] (stripComma "FOO,") (0x3000, 511, 9))
       else
         opLoop "LD" 0x3000 511 9 [] (0x2200 ||| 0) 0 0
           (llAdd [] (stripComma "FOO,") (0x3000, 511, 9))) ∧
    llCount (llAdd [] "FOO" (0x3000, 511, 9)) "FOO" = llCount [] "FOO" + 1 :=
  ⟨c6_label_operand_one_fixup.1 "LD" 0x3000 511 9 "FOO," [] 0x2200 0 0 []
     rfl rfl (by decide) rfl,
   c6_label_operand_one_fixup.2.1 [] "FOO" (0x3000, 511, 9)⟩

/-! ### C7 — `.BLKW` count handling -/

/-- C7: `.BLKW 0` does fail, and `.BLKW 4` advances the location counter by
4 with the memory image untouched, but `.BLKW -3` does NOT fail: the count
is parsed through `get_immediate`, whose `& 0xFFFF` masks `-3` to `65533`,
which passes the `value <= 0` guard, and the location counter advances by
65533. This contradicts the claim (and the guard's evident intent). -/
theorem c7_blkw_masked_negative :
    process_instruction { initSt with pc := 0x3000 } [".BLKW", "0"] ".BLKW 0" =
        .error "ValueError: bad .BLKW immediate" ∧
    get_immediate "-3" = .ok (some 65533) ∧
    (process_instruction { initSt with pc := 0x3000 } [".BLKW", "-3"]
        ".BLKW -3").map (fun st => st.pc) = .ok 77821 ∧
    (process_instruction { initSt with pc := 0x3000 } [".BLKW", "4"]
        ".BLKW 4").map (fun st => (st.pc, st.mem)) = .ok (0x3004, initSt.mem) := by
  refine ⟨by rfl, by rfl, by rfl, by rfl⟩

/-! ### C8 — undefined label at resolution time -/

/-- C8 counterexample: `progUndef` queues one fixup for `NOPE`, which is
absent from the final symbol table, yet the run completes without an error
(the resolver only prints and continues), so the claim that the run aborts
and the Emitter does not run is false. -/
theorem c8_counterexample :
    (assemble progUndef).isOk = true ∧
    (processLines initSt progUndef).map
        (fun st => (alookup st.labels "NOPE", llCount st.label_location "NOPE")) =
      .ok (none, 1) :=
  ⟨rfl, rfl⟩

/-- C8 amended: a fixup whose label is absent from the final symbol table
makes the resolver print a `Bad label failure` diagnostic and skip that
label's records (the referencing word stays unpatched); resolution
continues, and the Emitter still runs, producing the object words. -/
theorem c8_undefined_label_continues :
    (assemble progUndef).map (fun p => (p.1.mem 0x3000, p.1.pc, p.1.orig, p.2)) =
      .ok (0x2200, 0x3001, 0x3000, ["Bad label failure: NOPE"]) ∧
    (assemble progUndef).map
        (fun p => (emitObj p.1.mem p.1.orig p.1.pc).1) =
      .ok [byteswap16 0x3000, byteswap16 0x2200] :=
  ⟨rfl, rfl⟩

/-! ### C9 — object emission and the in-memory image -/

/-- C9 counterexample: emitting the object artifact does NOT leave the
image word-for-word equal to its value just before emission: the source
stores `orig` at `memory[pc]` before byte-swapping and never restores it,
so after emission the word at the final location counter is the origin
address (here `0x3000`) where it was `0` before. -/
theorem c9_counterexample :
    (assemble progAddHalt).map
        (fun p => (p.1.mem p.1.pc, (emitObj p.1.mem p.1.orig p.1.pc).2 p.1.pc)) =
      .ok (0, 0x3000) ∧ (0 : Nat) ≠ 0x3000 :=
  ⟨rfl, by decide⟩

/-- C9 amended: the byte swap applied to the image is reverted, so after
emission every word other than the one at the location counter equals its
value just before emission; the word at the location counter is left
holding the origin address (the one further mutation the Emitter makes —
it touches neither the symbol table nor the fixup list, which it does not
receive). -/
theorem c9_emit_restores_except_origin_cell (mem : Nat → Nat) (orig pc : Nat)
    (hm : ∀ a, mem a < 65536) (ho : orig < 65536) :
    (emitObj mem orig pc).2 pc = orig ∧
    ∀ a, a ≠ pc → (emitObj mem orig pc).2 a = mem a := by
  constructor
  · simp [emitObj, updateMem, byteswap16_byteswap16 ho]
  · intro a ha
    simp [emitObj, updateMem, ha, byteswap16_byteswap16 (hm a)]

/-- C9 amended witness at a concrete image. -/
theorem c9_emit_restores_except_origin_cell_witness :
    (emitObj (fun _ => 0) 0x3000 0x3002).2 0x3002 = 0x3000 ∧
    (emitObj (fun _ => 0) 0x3000 0x3002).2 0x3001 = 0 :=
  ⟨(c9_emit_restores_except_origin_cell (fun _ => 0) 0x3000 0x3002
      (fun _ => by norm_num) (by norm_num)).1,
   (c9_emit_restores_except_origin_cell (fun _ => 0) 0x3000 0x3002
      (fun _ => by norm_num) (by norm_num)).2 0x3001 (by norm_num)⟩

/-! ### C10 — negative values are stored in 16-bit two's complement -/

/-- C10: a negative value written through `put_and_show` (a negative
`.FILL` literal, or the `\b` escape whose decoded code is
`ord('b') - 100 = -2`) is stored as `value + 2^16`, which for the values
the encoder can write equals `value mod 2^16`; concretely `.FILL -1`
stores `0xFFFF` and `.STRINGZ "\b"` stores `65534`. -/
theorem c10_negative_values_mod_2_16 :
    (∀ (n : Int) (mem : Nat → Nat) (pc : Nat), -65536 ≤ n → n < 0 →
       put_and_show mem pc n = .ok (updateMem mem pc (n + 65536).toNat) ∧
       ((n + 65536).toNat : Int) = n % 65536) ∧
    (assemble [".ORIG x3000", "L .FILL -1"]).map (fun p => p.1.mem 0x3000) =
      .ok 0xFFFF ∧
    decodeEscapes ['\\', 'b'] false = [-2] ∧
    (assemble [".ORIG x3000", "S .STRINGZ \"\\b\""]).map
        (fun p => p.1.mem 0x3000) = .ok 65534 := by
  refine ⟨?_, rfl, rfl, rfl⟩
  intro n mem pc h1 h2
  constructor
  · simp only [put_and_show, memWrite]
    rw [if_pos h2, if_pos (by omega : (0 : Int) ≤ 65536 + n),
        if_pos (by omega : (65536 + n).toNat < 65536)]
    have : (65536 + n).toNat = (n + 65536).toNat := by omega
    rw [this]
  · omega

/-- C10 witness at `n = -1`. -/
theorem c10_negative_values_mod_2_16_witness :
    put_and_show (fun _ => 0) 0x3000 (-1) =
      .ok (updateMem (fun _ => 0) 0x3000 ((-1 : Int) + 65536).toNat) ∧
    (((-1 : Int) + 65536).toNat : Int) = (-1 : Int) % 65536 :=
  c10_negative_values_mod_2_16.1 (-1) (fun _ => 0) 0x3000
    (by norm_num) (by norm_num)

end LC3
